import Mathlib

/-!
Verification of the Lamport logical-clock simulator
(`paradigms/distributed/lamport/scripts/lamport_clock.py`).

The Python source is embedded shallowly:

* `EventType`, `Event`, `Message` mirror the dataclasses.
* A message id is built in the source as the f-string `f"{process_id}-{time}"`.
  Since the decimal rendering of `time` contains no dash, the string determines
  and is determined by the pair (process_id, time); we use that pair directly
  (`MsgId`) as the id.
* `LamportClock` methods become pure functions returning the produced
  record together with the updated clock.
* `DistributedSystem` holds its process registry as an insertion-ordered
  association list (a Python `dict`).  Operations that can raise return an
  `Except PyErr` result TOGETHER with the post-state: a Python exception does
  not roll back mutations already performed, so the (possibly mutated) state
  is always available — `deliver_message` in particular mutates the queues
  before the receiver lookup that can raise `KeyError`.
* `created_messages` is a ghost audit field (not in the source): it records
  every `Message` the system ever constructs, and is appended exactly where
  `send_message` creates one.  It is used only to state conservation.
-/

inductive EventType
  | LOCAL
  | SEND
  | RECEIVE
deriving DecidableEq

/-- The (process_id, time) pair the source renders as `f"{process_id}-{time}"`. -/
structure MsgId where
  sender : String
  time : Nat
deriving DecidableEq

structure Event where
  process_id : String
  event_type : EventType
  timestamp : Nat
  description : String
  message_id : Option MsgId
deriving DecidableEq

structure Message where
  id : MsgId
  sender : String
  receiver : String
  timestamp : Nat
  content : String
deriving DecidableEq

structure LamportClock where
  process_id : String
  time : Nat
  events : List Event
deriving DecidableEq

def LamportClock.init (pid : String) : LamportClock :=
  { process_id := pid, time := 0, events := [] }

def LamportClock.local_event (c : LamportClock) (description : String) :
    Event × LamportClock :=
  let t := c.time + 1
  let e : Event :=
    { process_id := c.process_id, event_type := .LOCAL, timestamp := t,
      description := description, message_id := none }
  (e, { c with time := t, events := c.events ++ [e] })

def LamportClock.send (c : LamportClock) (receiver content : String) :
    (Event × Message) × LamportClock :=
  let t := c.time + 1
  let m : Message :=
    { id := { sender := c.process_id, time := t }, sender := c.process_id,
      receiver := receiver, timestamp := t, content := content }
  let e : Event :=
    { process_id := c.process_id, event_type := .SEND, timestamp := t,
      description := "Send to " ++ receiver ++ ": " ++ content,
      message_id := some m.id }
  ((e, m), { c with time := t, events := c.events ++ [e] })

def LamportClock.receive (c : LamportClock) (m : Message) : Event × LamportClock :=
  let t := max c.time m.timestamp + 1
  let e : Event :=
    { process_id := c.process_id, event_type := .RECEIVE, timestamp := t,
      description := "Receive from " ++ m.sender ++ ": " ++ m.content,
      message_id := some m.id }
  (e, { c with time := t, events := c.events ++ [e] })

/-- Python exceptions the simulator can raise. -/
inductive PyErr
  | keyError (k : String)
  | valueError
deriving DecidableEq

/-- `d[k]` on an insertion-ordered association list (a Python dict). -/
def dictGet (d : List (String × LamportClock)) (k : String) : Option LamportClock :=
  match d with
  | [] => none
  | (k1, v) :: rest => if k1 = k then some v else dictGet rest k

/-- `d[k] = v` for a key already present (entry replaced in place). -/
def dictSet (d : List (String × LamportClock)) (k : String) (v : LamportClock) :
    List (String × LamportClock) :=
  match d with
  | [] => []
  | (k1, v1) :: rest =>
    if k1 = k then (k, v) :: dictSet rest k v else (k1, v1) :: dictSet rest k v

/-- Insert-or-overwrite, as the dict comprehension in `__init__` does. -/
def dictInsert (d : List (String × LamportClock)) (k : String) (v : LamportClock) :
    List (String × LamportClock) :=
  if (dictGet d k).isSome then dictSet d k v else d ++ [(k, v)]

/-- Python `list.remove`: drop the first occurrence. -/
def removeFirst (l : List Message) (m : Message) : List Message :=
  match l with
  | [] => []
  | x :: rest => if x = m then rest else x :: removeFirst rest m

structure DistributedSystem where
  processes : List (String × LamportClock)
  pending_messages : List Message
  delivered_messages : List Message
  /-- Ghost audit field: every message ever created by `send_message`. -/
  created_messages : List Message
deriving DecidableEq

def DistributedSystem.init (process_ids : List String) : DistributedSystem :=
  { processes :=
      process_ids.foldl (fun d pid => dictInsert d pid (LamportClock.init pid)) [],
    pending_messages := [], delivered_messages := [], created_messages := [] }

def DistributedSystem.local_event (sys : DistributedSystem)
    (process_id description : String) : Except PyErr Event × DistributedSystem :=
  match dictGet sys.processes process_id with
  | none => (.error (.keyError process_id), sys)
  | some c =>
    let r := c.local_event description
    (.ok r.1, { sys with processes := dictSet sys.processes process_id r.2 })

def DistributedSystem.send_message (sys : DistributedSystem)
    (sender receiver content : String) : Except PyErr Message × DistributedSystem :=
  match dictGet sys.processes sender with
  | none => (.error (.keyError sender), sys)
  | some c =>
    let r := c.send receiver content
    (.ok r.1.2,
      { sys with
        processes := dictSet sys.processes sender r.2,
        pending_messages := sys.pending_messages ++ [r.1.2],
        created_messages := sys.created_messages ++ [r.1.2] })

def DistributedSystem.deliver_message (sys : DistributedSystem) (m : Message) :
    Except PyErr Event × DistributedSystem :=
  if m ∈ sys.pending_messages then
    let sys1 : DistributedSystem :=
      { sys with
        pending_messages := removeFirst sys.pending_messages m,
        delivered_messages := sys.delivered_messages ++ [m] }
    match dictGet sys1.processes m.receiver with
    | none => (.error (.keyError m.receiver), sys1)
    | some c =>
      let r := c.receive m
      (.ok r.1, { sys1 with processes := dictSet sys1.processes m.receiver r.2 })
  else
    (.error .valueError, sys)

def findEvt (events : List Event) (mid : MsgId) (k : EventType) : Option Event :=
  events.find? fun e => decide (e.message_id = some mid ∧ e.event_type = k)

/-- The per-message loop body of `verify_causality`, over a list of
delivered messages, accumulating violation strings. -/
def verifyGo (sys : DistributedSystem) (msgs : List Message) (acc : List String) :
    Except PyErr (List String) :=
  match msgs with
  | [] => .ok acc
  | m :: rest =>
    match dictGet sys.processes m.sender with
    | none => .error (.keyError m.sender)
    | some sc =>
      match dictGet sys.processes m.receiver with
      | none => .error (.keyError m.receiver)
      | some rc =>
        match findEvt sc.events m.id .SEND, findEvt rc.events m.id .RECEIVE with
        | some se, some re =>
          if re.timestamp ≤ se.timestamp then
            verifyGo sys rest
              (acc ++
                ["Causality violation: send@" ++ toString se.timestamp ++
                  " -> receive@" ++ toString re.timestamp])
          else
            verifyGo sys rest acc
        | _, _ => verifyGo sys rest acc

def DistributedSystem.verify_causality (sys : DistributedSystem) :
    Except PyErr (List String) :=
  verifyGo sys sys.delivered_messages []

def allEvents (sys : DistributedSystem) : List Event :=
  (sys.processes.map fun p => p.2.events).flatten

/-- Ascending order on `(timestamp, process_id)` with lexicographic tie-break:
the `key` of the source's `sorted` call. -/
def evLE (a b : Event) : Prop :=
  a.timestamp < b.timestamp ∨
    (a.timestamp = b.timestamp ∧ a.process_id ≤ b.process_id)

instance evLE.instDecidable : DecidableRel evLE := fun a b =>
  decidable_of_iff
    (a.timestamp < b.timestamp ∨
      (a.timestamp = b.timestamp ∧ a.process_id.data ≤ b.process_id.data))
    (or_congr Iff.rfl (and_congr Iff.rfl String.le_iff_toList_le.symm))

instance evLE.instIsTotal : IsTotal Event evLE := by
  constructor
  intro a b
  rcases Nat.lt_trichotomy a.timestamp b.timestamp with h | h | h
  · exact Or.inl (Or.inl h)
  · rcases le_total a.process_id b.process_id with hs | hs
    · exact Or.inl (Or.inr ⟨h, hs⟩)
    · exact Or.inr (Or.inr ⟨h.symm, hs⟩)
  · exact Or.inr (Or.inl h)

instance evLE.instIsTrans : IsTrans Event evLE := by
  constructor
  intro a b c hab hbc
  rcases hab with h1 | ⟨h1, hs1⟩
  · rcases hbc with h2 | ⟨h2, _⟩
    · exact Or.inl (h1.trans h2)
    · exact Or.inl (h2 ▸ h1)
  · rcases hbc with h2 | ⟨h2, hs2⟩
    · exact Or.inl (h1 ▸ h2)
    · exact Or.inr ⟨h1.trans h2, hs1.trans hs2⟩

def DistributedSystem.get_global_history (sys : DistributedSystem) : List Event :=
  (allEvents sys).insertionSort evLE

/-- The loop of `deliver_all_pending`: `random.choice` is modelled by an
injected draw function taken modulo the pool size (the `none` branch is the
loop exit, reached exactly when `pending` is empty; the fuel argument is
instantiated with the pool size, which bounds the iteration count). -/
def deliverAllGo (draws : Nat → Nat) :
    Nat → Nat → DistributedSystem → Except PyErr Unit × DistributedSystem
  | _, 0, sys => (.ok (), sys)
  | step, fuel + 1, sys =>
    match sys.pending_messages[draws step % sys.pending_messages.length]? with
    | none => (.ok (), sys)
    | some m =>
      match sys.deliver_message m with
      | (.ok _, sys1) => deliverAllGo draws (step + 1) fuel sys1
      | (.error e, sys1) => (.error e, sys1)

def DistributedSystem.deliver_all_pending (sys : DistributedSystem)
    (draws : Nat → Nat) : Except PyErr Unit × DistributedSystem :=
  deliverAllGo draws 0 sys.pending_messages.length sys

/-- The public mutating operations of the coordinator. -/
inductive SysOp
  | localE (process_id description : String)
  | sendM (sender receiver content : String)
  | deliverM (m : Message)
deriving DecidableEq

/-- Apply one operation, keeping the post-state whether or not the
operation raised (Python exceptions do not undo prior mutations). -/
def applyOp (sys : DistributedSystem) (op : SysOp) : DistributedSystem :=
  match op with
  | .localE p d => (sys.local_event p d).2
  | .sendM s r c => (sys.send_message s r c).2
  | .deliverM m => (sys.deliver_message m).2

def runOps (process_ids : List String) (ops : List SysOp) : DistributedSystem :=
  ops.foldl applyOp (DistributedSystem.init process_ids)

/-- The three methods of one `LamportClock`, for process-local runs. -/
inductive ProcOp
  | localE (description : String)
  | sendE (receiver content : String)
  | recvE (m : Message)

def applyProcOp (c : LamportClock) (op : ProcOp) : LamportClock :=
  match op with
  | .localE d => (c.local_event d).2
  | .sendE r ct => (c.send r ct).2
  | .recvE m => (c.receive m).2

/-- Strict order of event timestamps (the per-log monotonicity relation). -/
def evLT (a b : Event) : Prop :=
  a.timestamp < b.timestamp

instance evLT.instIsTrans : IsTrans Event evLT :=
  ⟨fun _ _ _ h1 h2 => Nat.lt_trans h1 h2⟩

/-- Per-clock invariant: the log is strictly increasing and bounded by the
current clock value. -/
def clockWF (c : LamportClock) : Prop :=
  c.events.Chain' evLT ∧ ∀ e ∈ c.events, e.timestamp ≤ c.time

/-- Per-clock tagging invariant: every logged event carries this process id;
a SEND event's id is (own id, own timestamp); a RECEIVE event's id names a
send time strictly below the receive timestamp. -/
def procTagged (pid : String) (c : LamportClock) : Prop :=
  c.process_id = pid ∧
  (∀ e ∈ c.events, e.process_id = pid) ∧
  (∀ e ∈ c.events, e.event_type = .SEND →
    e.message_id = some { sender := pid, time := e.timestamp }) ∧
  (∀ e ∈ c.events, e.event_type = .RECEIVE →
    ∃ mid, e.message_id = some mid ∧ mid.time < e.timestamp)

/-- Well-formedness of a created message relative to the process registry. -/
def msgWF (d : List (String × LamportClock)) (m : Message) : Prop :=
  m.id = { sender := m.sender, time := m.timestamp } ∧
  ∃ c, dictGet d m.sender = some c ∧ m.timestamp ≤ c.time

/-- The coordinator invariant, maintained by every public operation
(including the mutated post-state of an operation that raised). -/
def SysInv (sys : DistributedSystem) : Prop :=
  (sys.processes.map Prod.fst).Nodup ∧
  (∀ p ∈ sys.processes, clockWF p.2 ∧ procTagged p.1 p.2) ∧
  (∀ m ∈ sys.created_messages, msgWF sys.processes m) ∧
  sys.created_messages.Nodup ∧
  (sys.pending_messages ++ sys.delivered_messages).Perm sys.created_messages

/-- The three messages the demo scenario of the source's `demo()` creates. -/
def msg1 : Message :=
  { id := { sender := "A", time := 2 }, sender := "A", receiver := "B",
    timestamp := 2, content := "Hello B" }

def msg2 : Message :=
  { id := { sender := "B", time := 4 }, sender := "B", receiver := "C",
    timestamp := 4, content := "Forward to C" }

def msg3 : Message :=
  { id := { sender := "C", time := 6 }, sender := "C", receiver := "A",
    timestamp := 6, content := "Response to A" }

/-- The operation script of `demo()`. -/
def demoOps : List SysOp :=
  [.localE "A" "Start computation", .sendM "A" "B" "Hello B",
   .localE "B" "Initialize", .localE "B" "Process data", .deliverM msg1,
   .sendM "B" "C" "Forward to C", .localE "C" "Startup", .deliverM msg2,
   .sendM "C" "A" "Response to A", .localE "A" "Continue processing",
   .deliverM msg3]

def demoSystem : DistributedSystem := runOps ["A", "B", "C"] demoOps

/-- A message addressed to an unregistered process `"Z"`. -/
def msgZ : Message :=
  { id := { sender := "A", time := 1 }, sender := "A", receiver := "Z",
    timestamp := 1, content := "x" }

/-- Reachable state with the unroutable `msgZ` pending. -/
def sysZ : DistributedSystem := runOps ["A"] [.sendM "A" "Z" "x"]

/-- Reachable state after the `deliver_message msgZ` attempt: the message was
moved to `delivered` before the receiver lookup raised `KeyError`. -/
def sysZdelivered : DistributedSystem :=
  runOps ["A"] [.sendM "A" "Z" "x", .deliverM msgZ]

/-- Reachable state with the unroutable `msgZ` and a routable loopback
message both pending. -/
def sysZ2 : DistributedSystem :=
  runOps ["A"] [.sendM "A" "Z" "x", .sendM "A" "A" "y"]

/-- A reachable state with one routable loopback message pending. -/
def sysLoop : DistributedSystem := runOps ["A"] [.sendM "A" "A" "x"]

/-- The loopback message pending in `sysLoop`. -/
def msgLoop : Message :=
  { id := { sender := "A", time := 1 }, sender := "A", receiver := "A",
    timestamp := 1, content := "x" }

/-! ### Association-list (dict) lemmas -/

theorem dictGet_mem {d : List (String × LamportClock)} {k : String}
    {v : LamportClock} (h : dictGet d k = some v) : (k, v) ∈ d := by
  induction d with
  | nil => simp [dictGet] at h
  | cons p rest ih =>
    obtain ⟨k1, v1⟩ := p
    by_cases hk : k1 = k
    · subst hk
      simp [dictGet] at h
      simp [h]
    · simp [dictGet, hk] at h
      exact List.mem_cons_of_mem _ (ih h)

theorem dictGet_eq_none_iff {d : List (String × LamportClock)} {k : String} :
    dictGet d k = none ↔ k ∉ d.map Prod.fst := by
  induction d with
  | nil => simp [dictGet]
  | cons p rest ih =>
    obtain ⟨k1, v1⟩ := p
    by_cases hk : k1 = k
    · subst hk; simp [dictGet]
    · simp [dictGet, hk, ih, Ne.symm hk]

theorem dictGet_dictSet_self {d : List (String × LamportClock)} {k : String}
    (v : LamportClock) (h : (dictGet d k).isSome) :
    dictGet (dictSet d k v) k = some v := by
  induction d with
  | nil => simp [dictGet] at h
  | cons p rest ih =>
    obtain ⟨k1, v1⟩ := p
    by_cases hk : k1 = k
    · subst hk; simp [dictGet, dictSet]
    · simp only [dictGet, if_neg hk, Option.isSome] at h
      simpa [dictGet, dictSet, hk] using ih h

theorem dictGet_dictSet_ne {d : List (String × LamportClock)} {k s : String}
    (v : LamportClock) (h : s ≠ k) :
    dictGet (dictSet d k v) s = dictGet d s := by
  induction d with
  | nil => simp [dictSet, dictGet]
  | cons p rest ih =>
    obtain ⟨k1, v1⟩ := p
    by_cases hk : k1 = k
    · subst hk
      simpa [dictSet, dictGet, Ne.symm h] using ih
    · by_cases hs : k1 = s
      · subst hs; simp [dictSet, dictGet, hk]
      · simpa [dictSet, dictGet, hk, hs] using ih

theorem keys_dictSet (d : List (String × LamportClock)) (k : String)
    (v : LamportClock) : (dictSet d k v).map Prod.fst = d.map Prod.fst := by
  induction d with
  | nil => rfl
  | cons p rest ih =>
    obtain ⟨k1, v1⟩ := p
    by_cases hk : k1 = k
    · subst hk; simpa [dictSet] using ih
    · simpa [dictSet, hk] using ih

theorem mem_dictSet {d : List (String × LamportClock)} {k : String}
    {v : LamportClock} {p : String × LamportClock} (h : p ∈ dictSet d k v) :
    p = (k, v) ∨ p ∈ d := by
  induction d with
  | nil => simp [dictSet] at h
  | cons q rest ih =>
    obtain ⟨k1, v1⟩ := q
    by_cases hk : k1 = k
    · subst hk
      simp [dictSet] at h
      rcases h with hL | hR
      · exact Or.inl hL
      · rcases ih hR with h1 | h1
        · exact Or.inl h1
        · exact Or.inr (List.mem_cons_of_mem _ h1)
    · simp [dictSet, hk] at h
      rcases h with hL | hR
      · exact Or.inr (hL ▸ List.mem_cons_self _ _)
      · rcases ih hR with h1 | h1
        · exact Or.inl h1
        · exact Or.inr (List.mem_cons_of_mem _ h1)

theorem dictGet_isSome_dictSet (d : List (String × LamportClock))
    (k s : String) (v : LamportClock) (hk : (dictGet d k).isSome) :
    (dictGet (dictSet d k v) s).isSome = (dictGet d s).isSome := by
  by_cases h : s = k
  · subst h; simp [dictGet_dictSet_self v hk, hk]
  · simp [dictGet_dictSet_ne v h]

/-! ### removeFirst lemmas -/

theorem removeFirst_perm {l : List Message} {m : Message} (h : m ∈ l) :
    (removeFirst l m ++ [m]).Perm l := by
  induction l with
  | nil => simp at h
  | cons x rest ih =>
    by_cases hx : x = m
    · subst hx
      simpa [removeFirst] using List.perm_append_comm
    · have hm : m ∈ rest := by
        rcases List.mem_cons.mp h with h1 | h1
        · exact absurd h1.symm hx
        · exact h1
      simpa [removeFirst, hx] using (ih hm).cons x

theorem removeFirst_length {l : List Message} {m : Message} (h : m ∈ l) :
    (removeFirst l m).length + 1 = l.length := by
  have := (removeFirst_perm h).length_eq
  simpa using this

theorem mem_of_mem_removeFirst {l : List Message} {m x : Message}
    (h : x ∈ removeFirst l m) : x ∈ l := by
  induction l with
  | nil => simpa [removeFirst] using h
  | cons y rest ih =>
    by_cases hy : y = m
    · subst hy; simp [removeFirst] at h; exact List.mem_cons_of_mem _ h
    · simp only [removeFirst, if_neg hy, List.mem_cons] at h
      rcases h with h | h
      · exact h ▸ List.mem_cons_self _ _
      · exact List.mem_cons_of_mem _ (ih h)

theorem not_mem_removeFirst {l : List Message} {m : Message}
    (hnd : l.Nodup) : m ∉ removeFirst l m := by
  induction l with
  | nil => simp [removeFirst]
  | cons x rest ih =>
    by_cases hx : x = m
    · subst hx
      simpa [removeFirst] using (List.nodup_cons.mp hnd).1
    · simp only [removeFirst, if_neg hx, List.mem_cons]
      push_neg
      exact ⟨fun h => hx h.symm, ih (List.nodup_cons.mp hnd).2⟩

/-! ### dictInsert / construction lemmas -/

theorem keys_dictInsert (d : List (String × LamportClock)) (k : String)
    (v : LamportClock) :
    (dictInsert d k v).map Prod.fst = d.map Prod.fst ∨
    (dictInsert d k v).map Prod.fst = d.map Prod.fst ++ [k] := by
  by_cases h : (dictGet d k).isSome
  · exact Or.inl (by simp [dictInsert, h, keys_dictSet])
  · refine Or.inr ?_
    simp [dictInsert, h]

theorem nodup_keys_dictInsert {d : List (String × LamportClock)} {k : String}
    (v : LamportClock) (h : (d.map Prod.fst).Nodup) :
    ((dictInsert d k v).map Prod.fst).Nodup := by
  by_cases hk : (dictGet d k).isSome
  · simpa [dictInsert, hk, keys_dictSet] using h
  · have hn : k ∉ d.map Prod.fst := by
      rw [← dictGet_eq_none_iff]
      exact Option.not_isSome_iff_eq_none.mp hk
    simp only [dictInsert, if_neg hk, List.map_append, List.map_cons, List.map_nil]
    rw [List.nodup_append]
    refine ⟨h, List.nodup_singleton k, ?_⟩
    intro a ha hb
    simp only [List.mem_singleton] at hb
    subst hb
    exact hn ha

theorem mem_dictInsert {d : List (String × LamportClock)} {k : String}
    {v : LamportClock} {p : String × LamportClock} (h : p ∈ dictInsert d k v) :
    p = (k, v) ∨ p ∈ d := by
  by_cases hk : (dictGet d k).isSome
  · simp only [dictInsert, if_pos hk] at h
    exact mem_dictSet h
  · simp only [dictInsert, if_neg hk, List.mem_append, List.mem_singleton] at h
    rcases h with h | h
    · exact Or.inr h
    · exact Or.inl h

theorem mem_keys_dictInsert {d : List (String × LamportClock)} {k s : String}
    {v : LamportClock} :
    s ∈ (dictInsert d k v).map Prod.fst ↔ s ∈ d.map Prod.fst ∨ s = k := by
  by_cases hk : (dictGet d k).isSome
  · rw [dictInsert, if_pos hk, keys_dictSet]
    constructor
    · exact fun h => Or.inl h
    · rintro (h | h)
      · exact h
      · subst h
        rcases Option.isSome_iff_exists.mp hk with ⟨c, hc⟩
        exact List.mem_map.mpr ⟨(s, c), dictGet_mem hc, rfl⟩
  · simp [dictInsert, hk]

/-! ### Per-clock invariant lemmas -/

theorem clockWF_init (pid : String) : clockWF (LamportClock.init pid) := by
  constructor <;> simp [LamportClock.init, clockWF]

theorem procTagged_init (pid : String) : procTagged pid (LamportClock.init pid) := by
  refine ⟨rfl, ?_, ?_, ?_⟩ <;> simp [LamportClock.init]

theorem clockWF_append {c : LamportClock} {e : Event} {t : Nat}
    (h : clockWF c) (ht : c.time < t) (het : e.timestamp = t) :
    clockWF { c with time := t, events := c.events ++ [e] } := by
  obtain ⟨hchain, hbound⟩ := h
  constructor
  · rw [List.chain'_append]
    refine ⟨hchain, List.chain'_singleton e, ?_⟩
    intro x hx y hy
    simp only [List.head?_cons, Option.mem_def, Option.some.injEq] at hy
    subst hy
    have hxm : x ∈ c.events := List.mem_of_mem_getLast? hx
    have := hbound x hxm
    simp only [evLT, het]
    omega
  · intro x hx
    rcases List.mem_append.mp hx with hx | hx
    · have := hbound x hx
      simp only []
      omega
    · simp only [List.mem_singleton] at hx
      subst hx
      simp [het]

theorem clockWF_local_event {c : LamportClock} (h : clockWF c) (d : String) :
    clockWF (c.local_event d).2 ∧ c.time < (c.local_event d).2.time := by
  refine ⟨clockWF_append h (Nat.lt_succ_self _) rfl, Nat.lt_succ_self _⟩

theorem clockWF_send {c : LamportClock} (h : clockWF c) (r ct : String) :
    clockWF (c.send r ct).2 ∧ c.time < (c.send r ct).2.time := by
  refine ⟨clockWF_append h (Nat.lt_succ_self _) rfl, Nat.lt_succ_self _⟩

theorem clockWF_receive {c : LamportClock} (h : clockWF c) (m : Message) :
    clockWF (c.receive m).2 ∧ c.time < (c.receive m).2.time := by
  have ht : c.time < max c.time m.timestamp + 1 :=
    Nat.lt_succ_of_le (Nat.le_max_left _ _)
  refine ⟨clockWF_append h ht rfl, ht⟩

theorem procTagged_local_event {pid : String} {c : LamportClock}
    (h : procTagged pid c) (d : String) : procTagged pid (c.local_event d).2 := by
  obtain ⟨hid, hpid, hsend, hrecv⟩ := h
  refine ⟨hid, ?_, ?_, ?_⟩ <;> intro e he <;>
    rcases List.mem_append.mp he with he | he
  · exact hpid e he
  · simp only [List.mem_singleton] at he
    subst he
    simpa [LamportClock.local_event] using hid
  · exact hsend e he
  · simp only [List.mem_singleton] at he
    subst he
    intro hty
    simp [LamportClock.local_event] at hty
  · exact hrecv e he
  · simp only [List.mem_singleton] at he
    subst he
    intro hty
    simp [LamportClock.local_event] at hty

theorem procTagged_send {pid : String} {c : LamportClock}
    (h : procTagged pid c) (r ct : String) : procTagged pid (c.send r ct).2 := by
  obtain ⟨hid, hpid, hsend, hrecv⟩ := h
  refine ⟨hid, ?_, ?_, ?_⟩ <;> intro e he <;>
    rcases List.mem_append.mp he with he | he
  · exact hpid e he
  · simp only [List.mem_singleton] at he
    subst he
    simpa [LamportClock.send] using hid
  · exact hsend e he
  · simp only [List.mem_singleton] at he
    subst he
    intro hty
    simp [LamportClock.send, hid]
  · exact hrecv e he
  · simp only [List.mem_singleton] at he
    subst he
    intro hty
    simp [LamportClock.send] at hty

theorem procTagged_receive {pid : String} {c : LamportClock} {m : Message}
    (h : procTagged pid c) (hm : m.id.time ≤ m.timestamp) :
    procTagged pid (c.receive m).2 := by
  obtain ⟨hid, hpid, hsend, hrecv⟩ := h
  refine ⟨hid, ?_, ?_, ?_⟩ <;> intro e he <;>
    rcases List.mem_append.mp he with he | he
  · exact hpid e he
  · simp only [List.mem_singleton] at he
    subst he
    simpa [LamportClock.receive] using hid
  · exact hsend e he
  · simp only [List.mem_singleton] at he
    subst he
    intro hty
    simp [LamportClock.receive] at hty
  · exact hrecv e he
  · simp only [List.mem_singleton] at he
    subst he
    intro _
    refine ⟨m.id, rfl, ?_⟩
    simp only [LamportClock.receive]
    have : m.timestamp < max c.time m.timestamp + 1 :=
      Nat.lt_succ_of_le (Nat.le_max_right _ _)
    omega

/-! ### Construction well-formedness -/

theorem init_fold_wf (pids : List String) :
    ∀ d : List (String × LamportClock),
      (d.map Prod.fst).Nodup → (∀ p ∈ d, p.2 = LamportClock.init p.1) →
      ((pids.foldl (fun d pid => dictInsert d pid (LamportClock.init pid))
          d).map Prod.fst).Nodup ∧
      (∀ p ∈ pids.foldl (fun d pid => dictInsert d pid (LamportClock.init pid)) d,
        p.2 = LamportClock.init p.1) ∧
      (∀ s, s ∈ (pids.foldl (fun d pid => dictInsert d pid (LamportClock.init pid))
          d).map Prod.fst ↔ s ∈ d.map Prod.fst ∨ s ∈ pids) := by
  induction pids with
  | nil =>
    intro d h1 h2
    refine ⟨h1, h2, fun s => ?_⟩
    simp
  | cons pid rest ih =>
    intro d h1 h2
    simp only [List.foldl_cons]
    obtain ⟨g1, g2, g3⟩ :=
      ih (dictInsert d pid (LamportClock.init pid))
        (nodup_keys_dictInsert _ h1)
        (by
          intro p hp
          rcases mem_dictInsert hp with h | h
          · subst h; rfl
          · exact h2 p h)
    refine ⟨g1, g2, fun s => ?_⟩
    rw [g3 s, mem_keys_dictInsert]
    constructor
    · rintro ((h | h) | h)
      · exact Or.inl h
      · exact Or.inr (h ▸ List.mem_cons_self _ _)
      · exact Or.inr (List.mem_cons_of_mem _ h)
    · rintro (h | h)
      · exact Or.inl (Or.inl h)
      · rcases List.mem_cons.mp h with h | h
        · exact Or.inl (Or.inr h)
        · exact Or.inr h

theorem init_processes_wf (pids : List String) :
    (((DistributedSystem.init pids).processes).map Prod.fst).Nodup ∧
    (∀ p ∈ (DistributedSystem.init pids).processes, p.2 = LamportClock.init p.1) ∧
    (∀ s, s ∈ ((DistributedSystem.init pids).processes).map Prod.fst ↔ s ∈ pids) := by
  obtain ⟨g1, g2, g3⟩ := init_fold_wf pids [] (by simp) (by simp)
  refine ⟨g1, g2, fun s => ?_⟩
  rw [DistributedSystem.init] at *
  simpa using g3 s

theorem sysInv_init (pids : List String) : SysInv (DistributedSystem.init pids) := by
  obtain ⟨g1, g2, _⟩ := init_processes_wf pids
  refine ⟨g1, ?_, ?_, ?_, ?_⟩
  · intro p hp
    rw [g2 p hp]
    exact ⟨clockWF_init p.1, procTagged_init p.1⟩
  · intro m hm
    simp [DistributedSystem.init] at hm
  · simp [DistributedSystem.init]
  · simp [DistributedSystem.init]

/-! ### System invariant preservation -/

theorem msgWF_mono {d : List (String × LamportClock)} {k : String}
    {c c1 : LamportClock} (hc : dictGet d k = some c) (hle : c.time ≤ c1.time)
    {m : Message} (h : msgWF d m) : msgWF (dictSet d k c1) m := by
  obtain ⟨hid, c0, hc0, hb⟩ := h
  refine ⟨hid, ?_⟩
  by_cases hs : m.sender = k
  · subst hs
    have hcc : c0 = c := Option.some.inj (hc0.symm.trans hc)
    refine ⟨c1, dictGet_dictSet_self c1 (by simp [hc]), ?_⟩
    subst hcc
    omega
  · exact ⟨c0, by rw [dictGet_dictSet_ne c1 hs]; exact hc0, hb⟩

theorem sysInv_local (sys : DistributedSystem) (pid d : String) (h : SysInv sys) :
    SysInv (sys.local_event pid d).2 := by
  obtain ⟨hkeys, hprocs, hmsgs, hnd, hperm⟩ := h
  cases hc : dictGet sys.processes pid with
  | none => simpa [DistributedSystem.local_event, hc] using
      ⟨hkeys, hprocs, hmsgs, hnd, hperm⟩
  | some c =>
    have hmem : (pid, c) ∈ sys.processes := dictGet_mem hc
    obtain ⟨hw, ht⟩ := hprocs (pid, c) hmem
    simp only [DistributedSystem.local_event, hc]
    refine ⟨?_, ?_, ?_, hnd, hperm⟩
    · simpa [keys_dictSet] using hkeys
    · intro q hq
      rcases mem_dictSet hq with hq1 | hq1
      · subst hq1
        exact ⟨(clockWF_local_event hw d).1, procTagged_local_event ht d⟩
      · exact hprocs q hq1
    · intro m hm
      exact msgWF_mono hc (Nat.le_succ _) (hmsgs m hm)

theorem sysInv_send (sys : DistributedSystem) (s r ct : String) (h : SysInv sys) :
    SysInv (sys.send_message s r ct).2 := by
  obtain ⟨hkeys, hprocs, hmsgs, hnd, hperm⟩ := h
  cases hc : dictGet sys.processes s with
  | none => simpa [DistributedSystem.send_message, hc] using
      ⟨hkeys, hprocs, hmsgs, hnd, hperm⟩
  | some c =>
    have hmem : (s, c) ∈ sys.processes := dictGet_mem hc
    obtain ⟨hw, ht⟩ := hprocs (s, c) hmem
    have hcid : c.process_id = s := ht.1
    simp only [DistributedSystem.send_message, hc]
    have hnotin : (c.send r ct).1.2 ∉ sys.created_messages := by
      intro hin
      obtain ⟨_, c0, hc0, hb⟩ := hmsgs _ hin
      have hsender : (c.send r ct).1.2.sender = s := hcid
      rw [hsender] at hc0
      have hcc : c0 = c := Option.some.inj (hc0.symm.trans hc)
      rw [hcc] at hb
      have hts : (c.send r ct).1.2.timestamp = c.time + 1 := rfl
      omega
    refine ⟨?_, ?_, ?_, ?_, ?_⟩
    · simpa [keys_dictSet] using hkeys
    · intro q hq
      rcases mem_dictSet hq with hq1 | hq1
      · subst hq1
        exact ⟨(clockWF_send hw r ct).1, procTagged_send ht r ct⟩
      · exact hprocs q hq1
    · intro m hm
      rcases List.mem_append.mp hm with hm1 | hm1
      · exact msgWF_mono hc (Nat.le_succ _) (hmsgs m hm1)
      · simp only [List.mem_singleton] at hm1
        subst hm1
        refine ⟨by simp [LamportClock.send, hcid], ?_⟩
        refine ⟨(c.send r ct).2, ?_, ?_⟩
        · have : (c.send r ct).1.2.sender = s := hcid
          rw [this]
          exact dictGet_dictSet_self _ (by simp [hc])
        · exact Nat.le_refl _
    · rw [List.nodup_append]
      refine ⟨hnd, List.nodup_singleton _, ?_⟩
      intro a ha hb
      simp only [List.mem_singleton] at hb
      subst hb
      exact hnotin ha
    · have h1 : ((sys.pending_messages ++ [(c.send r ct).1.2]) ++
          sys.delivered_messages).Perm
          ((sys.pending_messages ++ sys.delivered_messages) ++ [(c.send r ct).1.2]) := by
        rw [List.append_assoc, List.append_assoc]
        exact List.Perm.append_left _ List.perm_append_comm
      exact h1.trans (hperm.append_right _)

theorem sysInv_deliver (sys : DistributedSystem) (m : Message) (h : SysInv sys) :
    SysInv (sys.deliver_message m).2 := by
  obtain ⟨hkeys, hprocs, hmsgs, hnd, hperm⟩ := h
  by_cases hp : m ∈ sys.pending_messages
  · have hperm1 :
        (removeFirst sys.pending_messages m ++
          (sys.delivered_messages ++ [m])).Perm sys.created_messages := by
      have h1 : (removeFirst sys.pending_messages m ++
          (sys.delivered_messages ++ [m])).Perm
          ((removeFirst sys.pending_messages m ++ [m]) ++ sys.delivered_messages) := by
        rw [List.append_assoc]
        exact List.Perm.append_left _ List.perm_append_comm
      exact (h1.trans ((removeFirst_perm hp).append_right _)).trans hperm
    have hmc : m ∈ sys.created_messages :=
      hperm.subset (List.mem_append.mpr (Or.inl hp))
    obtain ⟨hmid, _, _, _⟩ := hmsgs m hmc
    have hmidt : m.id.time = m.timestamp := by rw [hmid]
    cases hc : dictGet sys.processes m.receiver with
    | none =>
      simp only [DistributedSystem.deliver_message, if_pos hp, hc]
      exact ⟨hkeys, hprocs, hmsgs, hnd, hperm1⟩
    | some c =>
      have hmem : (m.receiver, c) ∈ sys.processes := dictGet_mem hc
      obtain ⟨hw, ht⟩ := hprocs (m.receiver, c) hmem
      simp only [DistributedSystem.deliver_message, if_pos hp, hc]
      refine ⟨?_, ?_, ?_, hnd, hperm1⟩
      · simpa [keys_dictSet] using hkeys
      · intro q hq
        rcases mem_dictSet hq with hq1 | hq1
        · subst hq1
          exact ⟨(clockWF_receive hw m).1,
            procTagged_receive ht (Nat.le_of_eq hmidt)⟩
        · exact hprocs q hq1
      · intro m1 hm1
        have hle : c.time ≤ (c.receive m).2.time :=
          Nat.le_of_lt (clockWF_receive hw m).2
        exact msgWF_mono hc hle (hmsgs m1 hm1)
  · simpa [DistributedSystem.deliver_message, if_neg hp] using
      ⟨hkeys, hprocs, hmsgs, hnd, hperm⟩

theorem sysInv_applyOp (sys : DistributedSystem) (op : SysOp) (h : SysInv sys) :
    SysInv (applyOp sys op) := by
  cases op with
  | localE p d => exact sysInv_local sys p d h
  | sendM s r c => exact sysInv_send sys s r c h
  | deliverM m => exact sysInv_deliver sys m h

theorem sysInv_foldl (ops : List SysOp) :
    ∀ sys : DistributedSystem, SysInv sys → SysInv (ops.foldl applyOp sys) := by
  induction ops with
  | nil => exact fun sys h => h
  | cons op rest ih =>
    intro sys h
    exact ih _ (sysInv_applyOp sys op h)

theorem sysInv_runOps (pids : List String) (ops : List SysOp) :
    SysInv (runOps pids ops) :=
  sysInv_foldl ops _ (sysInv_init pids)

/-! ### Process-local runs (claim C3 support) -/

theorem clockWF_applyProcOp {c : LamportClock} (h : clockWF c) (op : ProcOp) :
    clockWF (applyProcOp c op) := by
  cases op with
  | localE d => exact (clockWF_local_event h d).1
  | sendE r ct => exact (clockWF_send h r ct).1
  | recvE m => exact (clockWF_receive h m).1

theorem clockWF_foldl (ops : List ProcOp) :
    ∀ c : LamportClock, clockWF c → clockWF (ops.foldl applyProcOp c) := by
  induction ops with
  | nil => exact fun c h => h
  | cons op rest ih => exact fun c h => ih _ (clockWF_applyProcOp h op)

/-! ### Global history support (claim C8) -/

theorem mem_allEvents {sys : DistributedSystem} {e : Event}
    (h : e ∈ allEvents sys) : ∃ p ∈ sys.processes, e ∈ p.2.events := by
  simp only [allEvents, List.mem_flatten, List.mem_map] at h
  obtain ⟨l, ⟨p, hp, hl⟩, he⟩ := h
  exact ⟨p, hp, hl ▸ he⟩

theorem recv_fact_of_inv {sys : DistributedSystem} (h : SysInv sys) {e : Event}
    (he : e ∈ allEvents sys) (hty : e.event_type = .RECEIVE) :
    ∃ mid, e.message_id = some mid ∧ mid.time < e.timestamp := by
  obtain ⟨p, hp, hep⟩ := mem_allEvents he
  exact (h.2.1 p hp).2.2.2.2 e hep hty

theorem send_fact_of_inv {sys : DistributedSystem} (h : SysInv sys) {e : Event}
    (he : e ∈ allEvents sys) (hty : e.event_type = .SEND) :
    e.message_id = some { sender := e.process_id, time := e.timestamp } := by
  obtain ⟨p, hp, hep⟩ := mem_allEvents he
  obtain ⟨hw, ht⟩ := h.2.1 p hp
  have h1 := ht.2.2.1 e hep hty
  have h2 := ht.2.1 e hep
  rw [h1, h2]

theorem pairwise_distinct_allEvents {sys : DistributedSystem} (h : SysInv sys) :
    (allEvents sys).Pairwise
      (fun a b => a.process_id = b.process_id → a.timestamp ≠ b.timestamp) := by
  obtain ⟨hkeys, hprocs, _, _, _⟩ := h
  rw [allEvents, List.pairwise_flatten]
  constructor
  · intro l hl
    simp only [List.mem_map] at hl
    obtain ⟨p, hp, hl⟩ := hl
    subst hl
    have hchain : p.2.events.Chain' evLT := (hprocs p hp).1.1
    have hpw : p.2.events.Pairwise evLT := List.chain'_iff_pairwise.mp hchain
    refine hpw.imp ?_
    intro a b hab
    exact fun _ => Nat.ne_of_lt hab
  · have hkpw : sys.processes.Pairwise (fun p q => p.1 ≠ q.1) :=
      (List.pairwise_map.mp hkeys)
    rw [List.pairwise_map]
    refine hkpw.imp_of_mem ?_
    intro p q hp hq hne
    intro x hx y hy hxy
    have hxp : x.process_id = p.1 := (hprocs p hp).2.2.1 x hx
    have hyq : y.process_id = q.1 := (hprocs q hq).2.2.1 y hy
    exact absurd (hxp ▸ hyq ▸ hxy) hne

/-! ### verify_causality support (claim C9) -/

theorem verifyGo_ok {sys : DistributedSystem} (hinv : SysInv sys)
    (msgs : List Message) (acc : List String)
    (hms : ∀ m ∈ msgs, m ∈ sys.created_messages)
    (hrecv : ∀ m ∈ msgs, (dictGet sys.processes m.receiver).isSome) :
    verifyGo sys msgs acc = .ok acc := by
  induction msgs generalizing acc with
  | nil => rfl
  | cons m rest ih =>
    have hmc := hms m (List.mem_cons_self _ _)
    obtain ⟨hmid, cs, hcs, _⟩ := hinv.2.2.1 m hmc
    obtain ⟨cr, hcr⟩ :=
      Option.isSome_iff_exists.mp (hrecv m (List.mem_cons_self _ _))
    have hmsrest : ∀ m1 ∈ rest, m1 ∈ sys.created_messages :=
      fun m1 h1 => hms m1 (List.mem_cons_of_mem _ h1)
    have hrecvrest : ∀ m1 ∈ rest, (dictGet sys.processes m1.receiver).isSome :=
      fun m1 h1 => hrecv m1 (List.mem_cons_of_mem _ h1)
    cases hse : findEvt cs.events m.id .SEND with
    | none =>
      cases hre : findEvt cr.events m.id .RECEIVE with
      | none =>
        simp only [verifyGo, hcs, hcr, hse, hre]
        exact ih acc hmsrest hrecvrest
      | some re =>
        simp only [verifyGo, hcs, hcr, hse, hre]
        exact ih acc hmsrest hrecvrest
    | some se =>
      cases hre : findEvt cr.events m.id .RECEIVE with
      | none =>
        simp only [verifyGo, hcs, hcr, hse, hre]
        exact ih acc hmsrest hrecvrest
      | some re =>
        have hse1 : cs.events.find?
            (fun e => decide (e.message_id = some m.id ∧ e.event_type = .SEND)) =
            some se := hse
        have hre1 : cr.events.find?
            (fun e => decide (e.message_id = some m.id ∧ e.event_type = .RECEIVE)) =
            some re := hre
        have hsfacts : se.message_id = some m.id ∧ se.event_type = .SEND := by
          have := List.find?_some hse1
          simpa using this
        have hsmem : se ∈ cs.events := List.mem_of_find?_eq_some hse1
        have hrfacts : re.message_id = some m.id ∧ re.event_type = .RECEIVE := by
          have := List.find?_some hre1
          simpa using this
        have hrmem : re ∈ cr.events := List.mem_of_find?_eq_some hre1
        have hts : procTagged m.sender cs :=
          (hinv.2.1 (m.sender, cs) (dictGet_mem hcs)).2
        have htr : procTagged m.receiver cr :=
          (hinv.2.1 (m.receiver, cr) (dictGet_mem hcr)).2
        have hseid := hts.2.2.1 se hsmem hsfacts.2
        have hset : se.timestamp = m.timestamp := by
          rw [hsfacts.1, hmid] at hseid
          have := Option.some.inj hseid
          have := congrArg MsgId.time this
          simpa using this.symm
        obtain ⟨mid1, hmid1, hlt1⟩ := htr.2.2.2 re hrmem hrfacts.2
        have hmid1e : mid1 = m.id := Option.some.inj (hmid1.symm.trans hrfacts.1)
        have hrt : m.timestamp < re.timestamp := by
          rw [hmid1e, hmid] at hlt1
          simpa using hlt1
        have hnle : ¬ re.timestamp ≤ se.timestamp := by omega
        simp only [verifyGo, hcs, hcr, hse, hre, if_neg hnle]
        exact ih acc hmsrest hrecvrest

/-! ### deliver_all_pending support (claim C10) -/

theorem deliver_ok_of_registered {sys : DistributedSystem} {m : Message}
    (hp : m ∈ sys.pending_messages) {c : LamportClock}
    (hc : dictGet sys.processes m.receiver = some c) :
    sys.deliver_message m =
      (.ok (c.receive m).1,
        { processes := dictSet sys.processes m.receiver (c.receive m).2,
          pending_messages := removeFirst sys.pending_messages m,
          delivered_messages := sys.delivered_messages ++ [m],
          created_messages := sys.created_messages }) := by
  simp [DistributedSystem.deliver_message, if_pos hp, hc]

theorem deliverAllGo_ok (draws : Nat → Nat) :
    ∀ (fuel step : Nat) (sys : DistributedSystem),
      sys.pending_messages.length ≤ fuel →
      (∀ m ∈ sys.pending_messages, (dictGet sys.processes m.receiver).isSome) →
      (deliverAllGo draws step fuel sys).1 = .ok () ∧
      (deliverAllGo draws step fuel sys).2.pending_messages = [] := by
  intro fuel
  induction fuel with
  | zero =>
    intro step sys hlen _
    have hnil : sys.pending_messages = [] :=
      List.length_eq_zero.mp (Nat.le_zero.mp hlen)
    simp [deliverAllGo, hnil]
  | succ fuel ih =>
    intro step sys hlen hreg
    cases hget : sys.pending_messages[draws step % sys.pending_messages.length]? with
    | none =>
      have hemp : sys.pending_messages = [] := by
        have hle := List.getElem?_eq_none_iff.mp hget
        rcases List.eq_nil_or_concat sys.pending_messages with h | ⟨l, a, h⟩
        · exact h
        · exfalso
          have hpos : 0 < sys.pending_messages.length := by simp [h]
          exact absurd hle (Nat.not_le_of_lt (Nat.mod_lt _ hpos))
      simp [deliverAllGo, hget, hemp]
    | some m =>
      have hm : m ∈ sys.pending_messages := List.getElem?_mem hget
      obtain ⟨c, hc⟩ := Option.isSome_iff_exists.mp (hreg m hm)
      have hstep := deliver_ok_of_registered hm hc
      simp only [deliverAllGo, hget, hstep]
      apply ih
      · have hrl := removeFirst_length hm
        simp only []
        omega
      · intro m1 hm1
        have hm1p := mem_of_mem_removeFirst hm1
        have hreg1 := hreg m1 hm1p
        have hkeep := dictGet_isSome_dictSet sys.processes m.receiver m1.receiver
          (c.receive m).2 (by simp [hc])
        simp only []
        rw [hkeep]
        exact hreg1

/-! ### Claim theorems -/

/-- Claim C2: for every process state and every message, `receive` sets the
clock to `max(current, message.timestamp) + 1`, records a RECEIVE event at
that value tagged with the message id, and the resulting timestamp is
strictly greater than both the prior clock value and the message's send
timestamp — equality with the send timestamp is impossible. -/
theorem claim_C2 (c : LamportClock) (m : Message) :
    (c.receive m).2.time = max c.time m.timestamp + 1 ∧
    (c.receive m).1.event_type = .RECEIVE ∧
    (c.receive m).1.timestamp = (c.receive m).2.time ∧
    (c.receive m).1.message_id = some m.id ∧
    (c.receive m).2.events = c.events ++ [(c.receive m).1] ∧
    c.time < (c.receive m).1.timestamp ∧
    m.timestamp < (c.receive m).1.timestamp := by
  refine ⟨rfl, rfl, rfl, rfl, rfl, ?_, ?_⟩
  · exact Nat.lt_succ_of_le (Nat.le_max_left _ _)
  · exact Nat.lt_succ_of_le (Nat.le_max_right _ _)

/-- Claim C3: for every process and every sequence of clock operations
(local_event, send, receive) starting from a fresh clock, the timestamps in
the process's event log are strictly increasing in insertion order. -/
theorem claim_C3 (pid : String) (ops : List ProcOp) :
    ((ops.foldl applyProcOp (LamportClock.init pid)).events).Chain'
      (fun a b => a.timestamp < b.timestamp) :=
  (clockWF_foldl ops _ (clockWF_init pid)).1

/-- Claim C7: after every sequence of public operations, every message ever
created is in exactly one of `pending_messages` and `delivered_messages`
(never both, never neither), so the count of messages ever created equals
the sizes of the two pools added. -/
theorem claim_C7 (pids : List String) (ops : List SysOp) :
    (runOps pids ops).created_messages.length =
      (runOps pids ops).pending_messages.length +
        (runOps pids ops).delivered_messages.length ∧
    ∀ m ∈ (runOps pids ops).created_messages,
      (m ∈ (runOps pids ops).pending_messages ∧
        m ∉ (runOps pids ops).delivered_messages) ∨
      (m ∉ (runOps pids ops).pending_messages ∧
        m ∈ (runOps pids ops).delivered_messages) := by
  obtain ⟨_, _, _, hnd, hperm⟩ := sysInv_runOps pids ops
  constructor
  · have hlen := hperm.length_eq
    rw [List.length_append] at hlen
    omega
  · intro m hm
    have hmm := hperm.symm.subset hm
    have hndpq : ((runOps pids ops).pending_messages ++
        (runOps pids ops).delivered_messages).Nodup := hperm.nodup_iff.mpr hnd
    rw [List.nodup_append] at hndpq
    rcases List.mem_append.mp hmm with h | h
    · exact Or.inl ⟨h, fun hd => hndpq.2.2 h hd⟩
    · exact Or.inr ⟨fun hp => hndpq.2.2 hp h, h⟩

/-- Claim C8: on every reachable state, `get_global_history` returns all
events of all processes sorted ascending by `(timestamp, process_id)` with
lexicographic tie-break on the process id, and this order is a linear
extension of happened-before: a RECEIVE event is never placed before the
matching SEND event (same message id), and two events of the same process
always appear in strictly increasing timestamp order — which is their local
log order, since each log is strictly increasing (claim C3). -/
theorem claim_C8 (pids : List String) (ops : List SysOp) :
    (runOps pids ops).get_global_history.Sorted evLE ∧
    (runOps pids ops).get_global_history.Perm (allEvents (runOps pids ops)) ∧
    (runOps pids ops).get_global_history.Pairwise
      (fun a b => ¬(a.event_type = .RECEIVE ∧ b.event_type = .SEND ∧
        ∃ mid, a.message_id = some mid ∧ b.message_id = some mid)) ∧
    (runOps pids ops).get_global_history.Pairwise
      (fun a b => a.process_id = b.process_id → a.timestamp < b.timestamp) := by
  have hinv := sysInv_runOps pids ops
  have hsort : (runOps pids ops).get_global_history.Sorted evLE :=
    List.sorted_insertionSort evLE _
  have hpermh : (runOps pids ops).get_global_history.Perm
      (allEvents (runOps pids ops)) := List.perm_insertionSort evLE _
  refine ⟨hsort, hpermh, ?_, ?_⟩
  · refine List.Pairwise.imp_of_mem ?_ hsort
    intro a b ha hb hab hbad
    obtain ⟨hra, hsb, mid, hma, hmb⟩ := hbad
    have ha1 : a ∈ allEvents (runOps pids ops) := hpermh.subset ha
    have hb1 : b ∈ allEvents (runOps pids ops) := hpermh.subset hb
    obtain ⟨mid0, hmid0, hlt⟩ := recv_fact_of_inv hinv ha1 hra
    have hmid0e : mid0 = mid := Option.some.inj (hmid0.symm.trans hma)
    subst hmid0e
    have hbs := send_fact_of_inv hinv hb1 hsb
    have hmide : mid0 = { sender := b.process_id, time := b.timestamp } :=
      Option.some.inj (hmb.symm.trans hbs)
    have hbt : mid0.time = b.timestamp := by rw [hmide]
    have h1 : b.timestamp < a.timestamp := hbt ▸ hlt
    rcases hab with h2 | ⟨h2, _⟩ <;> omega
  · have hD := pairwise_distinct_allEvents hinv
    have hDh : (runOps pids ops).get_global_history.Pairwise
        (fun a b => a.process_id = b.process_id → a.timestamp ≠ b.timestamp) := by
      refine (List.Perm.pairwise_iff ?_ hpermh).mpr hD
      intro a b h hpb hte
      exact h hpb.symm hte.symm
    have hcomb := List.Pairwise.and hsort hDh
    refine hcomb.imp ?_
    intro a b hab hpid
    rcases hab.1 with h | ⟨h, _⟩
    · exact h
    · exact absurd h (hab.2 hpid)

/-- Claim C9 (amended): on every reachable state all of whose delivered
messages have a registered receiver, `verify_causality` returns (never
raises) the empty list of violations — the violation branch is unreachable.
(The original claim fails: a `deliver_message` that hits an unregistered
receiver moves the message to `delivered` before raising, after which
`verify_causality` raises `KeyError`; see the counterexample.) -/
theorem claim_C9 (pids : List String) (ops : List SysOp)
    (hrecv : ∀ m ∈ (runOps pids ops).delivered_messages,
      (dictGet (runOps pids ops).processes m.receiver).isSome) :
    (runOps pids ops).verify_causality = Except.ok [] := by
  have hinv := sysInv_runOps pids ops
  refine verifyGo_ok hinv _ [] ?_ hrecv
  intro m hm
  exact hinv.2.2.2.2.subset (List.mem_append.mpr (Or.inr hm))

/-- Witness for C9: a concrete reachable state satisfying the hypothesis. -/
theorem claim_C9_witness : (runOps ["A"] []).verify_causality = Except.ok [] :=
  claim_C9 ["A"] [] (by decide)

/-- Counterexample to C9 as stated: a state reachable through the public
operations (the failed delivery still moved `msgZ` into `delivered`) on
which `verify_causality` raises `KeyError` instead of returning a list. -/
theorem claim_C9_counterexample :
    msgZ ∈ sysZdelivered.delivered_messages ∧
    sysZdelivered.verify_causality = Except.error (PyErr.keyError "Z") := by
  exact ⟨by decide, rfl⟩

/-- Claim C10 (amended): whenever every pending message has a registered
receiver, `deliver_all_pending` terminates successfully with `pending`
empty, for every draw sequence: each iteration removes exactly one message
and delivery never creates pending messages.  (The original claim fails on
reachable states holding a message to an unregistered receiver: the
`KeyError` aborts the loop and can leave messages pending.) -/
theorem claim_C10 (sys : DistributedSystem) (draws : Nat → Nat)
    (hreg : ∀ m ∈ sys.pending_messages,
      (dictGet sys.processes m.receiver).isSome) :
    (sys.deliver_all_pending draws).1 = Except.ok () ∧
    (sys.deliver_all_pending draws).2.pending_messages = [] :=
  deliverAllGo_ok draws sys.pending_messages.length 0 sys (Nat.le_refl _) hreg

/-- Witness for C10: a concrete reachable state with one pending loopback
message; the loop drains it. -/
theorem claim_C10_witness :
    (sysLoop.deliver_all_pending (fun _ => 0)).1 = Except.ok () ∧
    (sysLoop.deliver_all_pending (fun _ => 0)).2.pending_messages = [] :=
  claim_C10 sysLoop (fun _ => 0) (by decide)

/-- Counterexample to C10 as stated: on the reachable state `sysZ2` the
draw order that picks the unroutable message first aborts the loop with
`KeyError`, leaving the other message pending forever. -/
theorem claim_C10_counterexample :
    (sysZ2.deliver_all_pending (fun _ => 0)).1 =
      Except.error (PyErr.keyError "Z") ∧
    (sysZ2.deliver_all_pending (fun _ => 0)).2.pending_messages =
      [{ id := { sender := "A", time := 2 }, sender := "A", receiver := "A",
         timestamp := 2, content := "y" }] := by
  exact ⟨rfl, by decide⟩

/-- Claim C1 (amended): the demo scenario produces exactly the stated
timestamps — B receives at 3 = max(2,2)+1, C at 5 = max(1,4)+1, A at
7 = max(3,6)+1 — and `verify_causality` returns the empty list; but
`global_history` has 11 entries, not 10: the spec's expected list omits
the `(3,A)` entry for `A.local("cont")`, which its own script creates.
The full order is (1,A) (1,B) (1,C) (2,A) (2,B) (3,A) (3,B) (4,B) (5,C)
(6,C) (7,A). -/
theorem claim_C1 :
    demoSystem.get_global_history.map
        (fun e => (e.timestamp, e.process_id, e.event_type)) =
      [(1, "A", .LOCAL), (1, "B", .LOCAL), (1, "C", .LOCAL), (2, "A", .SEND),
       (2, "B", .LOCAL), (3, "A", .LOCAL), (3, "B", .RECEIVE), (4, "B", .SEND),
       (5, "C", .RECEIVE), (6, "C", .SEND), (7, "A", .RECEIVE)] ∧
    demoSystem.get_global_history.length = 11 ∧
    demoSystem.verify_causality = Except.ok [] := by
  refine ⟨by decide, by decide, rfl⟩

/-- Counterexample to C1 as stated: `global_history()` of the demo scenario
has 11 entries, not 10 — the event `(3,A)` is present between `(2,B)` and
`(3,B)`. -/
theorem claim_C1_counterexample :
    demoSystem.get_global_history.length ≠ 10 ∧
    demoSystem.get_global_history.length = 11 ∧
    (demoSystem.get_global_history.map
        (fun e => (e.timestamp, e.process_id)))[5]? = some (3, "A") := by
  refine ⟨by decide, by decide, by decide⟩

/-- Claim C4 (amended): construction never fails — the source `__init__`
performs no validation.  Any list of ids is accepted: the dict comprehension
keeps one process per distinct id (duplicates collapse silently), an empty
list yields a system with no processes, and the message pools start empty. -/
theorem claim_C4 (pids : List String) :
    (((DistributedSystem.init pids).processes).map Prod.fst).Nodup ∧
    (∀ s, s ∈ ((DistributedSystem.init pids).processes).map Prod.fst ↔
      s ∈ pids) ∧
    (∀ p ∈ (DistributedSystem.init pids).processes,
      p.2 = LamportClock.init p.1) ∧
    (DistributedSystem.init pids).pending_messages = [] ∧
    (DistributedSystem.init pids).delivered_messages = [] := by
  obtain ⟨g1, g2, g3⟩ := init_processes_wf pids
  exact ⟨g1, g3, g2, rfl, rfl⟩

/-- Counterexample to C4 as stated: the constructor accepts both the empty
id list and a duplicate id list, producing ordinary systems instead of
failing with ConfigurationError (the embedded constructor, like the source
`__init__`, is total — it has no failure path at all). -/
theorem claim_C4_counterexample :
    (DistributedSystem.init []).processes = [] ∧
    (DistributedSystem.init ["A", "A"]).processes =
      [("A", LamportClock.init "A")] := by
  exact ⟨rfl, by decide⟩

/-- Claim C5 (amended): `send_message` raises `KeyError` if and only if the
sender is not registered, leaving the state untouched; the receiver is
never validated (any receiver string, registered or not, including the
sender itself as a loopback, is accepted), and on success the created
message — addressed to exactly the given receiver — is appended to
`pending`. -/
theorem claim_C5 (sys : DistributedSystem) (s r ct : String) :
    ((sys.send_message s r ct).1.isOk = true ↔
      (dictGet sys.processes s).isSome) ∧
    (dictGet sys.processes s = none →
      sys.send_message s r ct = (Except.error (PyErr.keyError s), sys)) ∧
    (∀ c, dictGet sys.processes s = some c →
      (sys.send_message s r ct).1 = Except.ok (c.send r ct).1.2 ∧
      (sys.send_message s r ct).2.pending_messages =
        sys.pending_messages ++ [(c.send r ct).1.2] ∧
      (c.send r ct).1.2.receiver = r ∧
      (c.send r ct).1.2.content = ct ∧
      (c.send r ct).1.2.timestamp = c.time + 1) := by
  cases hc : dictGet sys.processes s with
  | none =>
    refine ⟨?_, fun _ => by simp [DistributedSystem.send_message, hc], ?_⟩
    · simp [DistributedSystem.send_message, hc, Except.isOk, Except.toBool]
    · intro c hcs
      cases hcs
  | some c =>
    refine ⟨?_, fun h => Option.noConfusion h, ?_⟩
    · simp [DistributedSystem.send_message, hc, Except.isOk, Except.toBool]
    · intro c1 hcs
      injection hcs with hcc
      subst hcc
      refine ⟨?_, ?_, rfl, rfl, rfl⟩
      · simp [DistributedSystem.send_message, hc]
      · simp [DistributedSystem.send_message, hc]

/-- Witness for C5: a loopback send on a registered sender succeeds. -/
theorem claim_C5_witness :
    ((DistributedSystem.init ["A"]).send_message "A" "A" "hi").1.isOk = true :=
  (claim_C5 (DistributedSystem.init ["A"]) "A" "A" "hi").1.mpr (by decide)

/-- Counterexample to C5 as stated: sending to the unregistered receiver
`"Z"` succeeds and queues the message, instead of raising
UnknownProcessError. -/
theorem claim_C5_counterexample :
    ((DistributedSystem.init ["A"]).send_message "A" "Z" "x").1 =
      Except.ok msgZ ∧
    ((DistributedSystem.init ["A"]).send_message "A" "Z" "x").2.pending_messages =
      [msgZ] := by
  exact ⟨rfl, rfl⟩

/-- Claim C6 (amended): `deliver_message` raises ValueError (the source's
"message not in pending queue", the spec's MessageNotPendingError) if and
only if the message is not currently pending, leaving the state untouched;
a pending message is always removed from `pending` and appended to
`delivered`, after which the receiver's `receive` runs and its RECEIVE
event is returned when the receiver is registered — but when the receiver
is unregistered a `KeyError` is raised instead, with the message already
moved (see the counterexample).  A second delivery of the same message
always fails (pending holds no duplicates on reachable states). -/
theorem claim_C6 (sys : DistributedSystem) (m : Message) :
    ((sys.deliver_message m).1 = Except.error PyErr.valueError ↔
      m ∉ sys.pending_messages) ∧
    (m ∉ sys.pending_messages → (sys.deliver_message m).2 = sys) ∧
    (m ∈ sys.pending_messages →
      (sys.deliver_message m).2.pending_messages =
        removeFirst sys.pending_messages m ∧
      (sys.deliver_message m).2.delivered_messages =
        sys.delivered_messages ++ [m] ∧
      (dictGet sys.processes m.receiver = none →
        (sys.deliver_message m).1 = Except.error (PyErr.keyError m.receiver)) ∧
      (∀ c, dictGet sys.processes m.receiver = some c →
        (sys.deliver_message m).1 = Except.ok (c.receive m).1 ∧
        (c.receive m).1.event_type = EventType.RECEIVE)) ∧
    (m ∈ sys.pending_messages → sys.pending_messages.Nodup →
      ((sys.deliver_message m).2.deliver_message m).1 =
        Except.error PyErr.valueError) := by
  by_cases hp : m ∈ sys.pending_messages
  · have hpend : (sys.deliver_message m).2.pending_messages =
        removeFirst sys.pending_messages m := by
      cases hc : dictGet sys.processes m.receiver with
      | none => simp [DistributedSystem.deliver_message, if_pos hp, hc]
      | some c => simp [DistributedSystem.deliver_message, if_pos hp, hc]
    refine ⟨?_, fun h => absurd hp h, ?_, ?_⟩
    · constructor
      · intro hv
        exfalso
        cases hc : dictGet sys.processes m.receiver with
        | none =>
          rw [DistributedSystem.deliver_message] at hv
          simp [if_pos hp, hc] at hv
        | some c =>
          rw [DistributedSystem.deliver_message] at hv
          simp [if_pos hp, hc] at hv
      · intro h
        exact absurd hp h
    · intro _
      refine ⟨hpend, ?_, ?_, ?_⟩
      · cases hc : dictGet sys.processes m.receiver with
        | none => simp [DistributedSystem.deliver_message, if_pos hp, hc]
        | some c => simp [DistributedSystem.deliver_message, if_pos hp, hc]
      · intro hc
        simp [DistributedSystem.deliver_message, if_pos hp, hc]
      · intro c hc
        exact ⟨by simp [DistributedSystem.deliver_message, if_pos hp, hc], rfl⟩
    · intro _ hnd
      have hnm : m ∉ (sys.deliver_message m).2.pending_messages := by
        rw [hpend]
        exact not_mem_removeFirst hnd
      rw [DistributedSystem.deliver_message, if_neg hnm]
  · refine ⟨?_, ?_, fun h => absurd h hp, fun h => absurd h hp⟩
    · simp only [DistributedSystem.deliver_message, if_neg hp]
      simp [hp]
    · intro _
      simp [DistributedSystem.deliver_message, if_neg hp]

/-- Witness for C6: delivering the loopback message of `sysLoop` twice
fails on the second attempt with ValueError. -/
theorem claim_C6_witness :
    ((sysLoop.deliver_message msgLoop).2.deliver_message msgLoop).1 =
      Except.error PyErr.valueError :=
  (claim_C6 sysLoop msgLoop).2.2.2 (by decide) (by decide)

/-- Counterexample to C6 as stated: `msgZ` is pending in `sysZ`, yet
delivery does not return a RECEIVE event — it raises `KeyError` (after
having moved the message to `delivered`), because the claim's "otherwise"
branch silently assumes the receiver is registered. -/
theorem claim_C6_counterexample :
    msgZ ∈ sysZ.pending_messages ∧
    (sysZ.deliver_message msgZ).1 = Except.error (PyErr.keyError "Z") ∧
    msgZ ∈ (sysZ.deliver_message msgZ).2.delivered_messages := by
  refine ⟨by decide, rfl, by decide⟩
